import Mathlib

/-!
Verification of the job/notification queue core of the BotWhatsapp repository:
a shallow embedding of `src/queueManager.js` (the `QueueManager` class, present
in the repository as the second half of `src/ocr.js`), the worker loop of
`src/queueWorker.js`, and the configuration constants of `src/config.js`,
together with proofs of the specified queueing, aggregation, retry, pacing,
supervision and shutdown properties.
-/

set_option maxRecDepth 8000

namespace BotQueue

/-! ### Configuration constants (src/config.js) -/

def QUEUE_CHECK_INTERVAL : Nat := 500

def SHUTDOWN_TIMEOUT : Nat := 600000

def MAX_RETRIES : Nat := 2

def WORKER_RESTART_DELAYS : List Nat := [5000, 10000, 20000, 40000, 60000]

def DOCUMENT_FAIL_THRESHOLD : Nat := 3

/-! ### Data model (QueueManager in src/queueManager.js)

An `Outcome` is the object the worker passes to `trackJobCompletion`:
`{success, message, materiaNombre, userId}`. -/

structure Outcome where
  success : Bool
  message : String
  materiaNombre : String
  userId : String
deriving Repr, DecidableEq

/-- A per-document progress record: `{total, completed, results, failedCount}`
as created by `initDocument`. -/
structure DocProgress where
  total : Nat
  completed : Nat
  results : List Outcome
  failedCount : Nat
deriving Repr, DecidableEq

/-- A job object `{userId, groupJid, subjectId, documentId, materiaNombre}`. -/
structure Job where
  userId : String
  groupJid : String
  subjectId : Option Nat
  documentId : Nat
  materiaNombre : String
deriving Repr, DecidableEq

/-- A notification object `{userId, message, chat}`; the live chat handle is
modelled by an opaque numeric identifier. -/
structure Notification where
  userId : String
  message : String
  chat : Nat
deriving Repr, DecidableEq

/-- The two terminal events the aggregator can emit for a document:
`document:failed` and `document:ready-to-notify`, each carrying
`{documentId, results, userId}` where `userId` is taken from the outcome
of the final job. -/
inductive Signal where
  | documentFailed (documentId : Nat) (results : List Outcome) (userId : String)
  | documentReadyToNotify (documentId : Nat) (results : List Outcome) (userId : String)
deriving Repr, DecidableEq

/-- The state of the `QueueManager` singleton. The `documentProgress` map is
modelled as a function from document ids to optional records. -/
structure QMState where
  jobQueue : List Job
  notificationQueue : List Notification
  documentProgress : Nat → Option DocProgress
  totalCompleted : Nat
  totalFailed : Nat
  jobsProcessing : Nat

/-- The state built by the `QueueManager` constructor. -/
def emptyQM : QMState :=
  { jobQueue := []
    notificationQueue := []
    documentProgress := fun _ => none
    totalCompleted := 0
    totalFailed := 0
    jobsProcessing := 0 }

/-! ### QueueManager operations -/

/-- `addJob(job)`: `this.jobQueue.push(job)`. -/
def addJob (s : QMState) (job : Job) : QMState :=
  { s with jobQueue := s.jobQueue ++ [job] }

/-- `addNotification(notification)`: `this.notificationQueue.push(notification)`. -/
def addNotification (s : QMState) (n : Notification) : QMState :=
  { s with notificationQueue := s.notificationQueue ++ [n] }

/-- `getNextJob()`: `this.jobQueue.shift() || null`. -/
def getNextJob (s : QMState) : Option Job × QMState :=
  match s.jobQueue with
  | [] => (none, s)
  | j :: rest => (some j, { s with jobQueue := rest })

/-- `getNextNotification()`: `this.notificationQueue.shift() || null`. -/
def getNextNotification (s : QMState) : Option Notification × QMState :=
  match s.notificationQueue with
  | [] => (none, s)
  | n :: rest => (some n, { s with notificationQueue := rest })

/-- `initDocument(documentId, total)`: unconditionally sets a fresh record
`{total, completed: 0, results: [], failedCount: 0}` (last writer wins). -/
def initDocument (s : QMState) (documentId : Nat) (total : Nat) : QMState :=
  { s with documentProgress := fun k =>
      if k = documentId then some { total := total, completed := 0, results := [], failedCount := 0 }
      else s.documentProgress k }

/-- The `failedCount` increment of one tracked outcome: `if (!result.success) failedCount++`. -/
def failInc (o : Outcome) : Nat := if o.success then 0 else 1

/-- `trackJobCompletion(documentId, result)`: if no record exists, log and
return; otherwise increment `completed`, append `result` to `results`,
bump `failedCount` on failure, and when `completed === total` emit exactly one
of the two terminal events (failed when `failedCount >= DOCUMENT_FAIL_THRESHOLD`)
and delete the record. Returns the new state and the emitted event, if any. -/
def trackJobCompletion (s : QMState) (documentId : Nat) (result : Outcome) :
    QMState × Option Signal :=
  match s.documentProgress documentId with
  | none => (s, none)
  | some progress =>
    let p : DocProgress :=
      { total := progress.total
        completed := progress.completed + 1
        results := progress.results ++ [result]
        failedCount := progress.failedCount + failInc result }
    if p.completed = p.total then
      if DOCUMENT_FAIL_THRESHOLD ≤ p.failedCount then
        ({ s with
            documentProgress := fun k => if k = documentId then none else s.documentProgress k
            totalFailed := s.totalFailed + 1 },
          some (Signal.documentFailed documentId p.results result.userId))
      else
        ({ s with
            documentProgress := fun k => if k = documentId then none else s.documentProgress k
            totalCompleted := s.totalCompleted + 1 },
          some (Signal.documentReadyToNotify documentId p.results result.userId))
    else
      ({ s with
          documentProgress := fun k => if k = documentId then some p else s.documentProgress k },
        none)

/-- The record returned by `getQueueStats()`. -/
structure QueueStats where
  jobsPending : Nat
  jobsProcessing : Nat
  notificationsPending : Nat
  totalCompleted : Nat
  totalFailed : Nat
deriving Repr, DecidableEq

/-- `getQueueStats()`. -/
def getQueueStats (s : QMState) : QueueStats :=
  { jobsPending := s.jobQueue.length
    jobsProcessing := s.jobsProcessing
    notificationsPending := s.notificationQueue.length
    totalCompleted := s.totalCompleted
    totalFailed := s.totalFailed }

/-- `getQueueSize()`. -/
def getQueueSize (s : QMState) : Nat := s.jobQueue.length

/-- `markJobProcessing()`: `this.jobsProcessing = 1`. -/
def markJobProcessing (s : QMState) : QMState := { s with jobsProcessing := 1 }

/-- `markJobCompleted()`: `this.jobsProcessing = 0`. -/
def markJobCompleted (s : QMState) : QMState := { s with jobsProcessing := 0 }

/-! ### Sequences of aggregator calls -/

/-- Run a sequence of `trackJobCompletion` calls for one document, collecting
per-call the event it emitted (`none` when that call emitted nothing). -/
def runTrackCalls (s : QMState) (documentId : Nat) (outs : List Outcome) :
    QMState × List (Option Signal) :=
  match outs with
  | [] => (s, [])
  | o :: rest =>
    let step := trackJobCompletion s documentId o
    let next := runTrackCalls step.1 documentId rest
    (next.1, step.2 :: next.2)

/-- Number of failed outcomes in a list (the total `failedCount` contribution). -/
def countFail (outs : List Outcome) : Nat := (outs.map failInc).sum

/-- An aggregator operation: an `initDocument` or a `trackJobCompletion` call. -/
inductive AggOp where
  | init (documentId : Nat) (total : Nat)
  | track (documentId : Nat) (result : Outcome)
deriving Repr, DecidableEq

/-- Apply one aggregator operation (events discarded). -/
def applyAggOp (s : QMState) : AggOp → QMState
  | AggOp.init d t => initDocument s d t
  | AggOp.track d o => (trackJobCompletion s d o).1

/-- Run a sequence of aggregator operations from a state. -/
def runAggOps (s : QMState) : List AggOp → QMState
  | [] => s
  | op :: rest => runAggOps (applyAggOp s op) rest

/-- Boolean check that every `initDocument` in a sequence passes a positive
expected total. -/
def allInitsPositive (ops : List AggOp) : Bool :=
  ops.all fun op =>
    match op with
    | AggOp.init _ t => decide (1 ≤ t)
    | AggOp.track _ _ => true

/-! ### Sequences of QueueManager operations (queues and counters) -/

/-- Any mutating operation of the `QueueManager` API. -/
inductive QMOp where
  | enqJob (job : Job)
  | enqNotif (n : Notification)
  | deqJob
  | deqNotif
  | init (documentId : Nat) (total : Nat)
  | track (documentId : Nat) (result : Outcome)
  | markProcessing
  | markCompleted
deriving Repr, DecidableEq

/-- Apply one `QueueManager` operation; dequeues also report what they returned. -/
def applyQMOp (s : QMState) :
    QMOp → QMState × Option (Option Job) × Option (Option Notification)
  | QMOp.enqJob j => (addJob s j, none, none)
  | QMOp.enqNotif n => (addNotification s n, none, none)
  | QMOp.deqJob =>
    let r := getNextJob s
    (r.2, some r.1, none)
  | QMOp.deqNotif =>
    let r := getNextNotification s
    (r.2, none, some r.1)
  | QMOp.init d t => (initDocument s d t, none, none)
  | QMOp.track d o => ((trackJobCompletion s d o).1, none, none)
  | QMOp.markProcessing => (markJobProcessing s, none, none)
  | QMOp.markCompleted => (markJobCompleted s, none, none)

/-- Run a sequence of `QueueManager` operations, collecting the final state,
the answers of the job dequeues in order, and the answers of the notification
dequeues in order. -/
def runQMOps (s : QMState) :
    List QMOp → QMState × List (Option Job) × List (Option Notification)
  | [] => (s, [], [])
  | op :: rest =>
    let step := applyQMOp s op
    let next := runQMOps step.1 rest
    (next.1, step.2.1.toList ++ next.2.1, step.2.2.toList ++ next.2.2)

/-- The jobs enqueued by a sequence of operations, in order. -/
def enqueuedJobs : List QMOp → List Job
  | [] => []
  | QMOp.enqJob j :: rest => j :: enqueuedJobs rest
  | _ :: rest => enqueuedJobs rest

/-- The notifications enqueued by a sequence of operations, in order. -/
def enqueuedNotifs : List QMOp → List Notification
  | [] => []
  | QMOp.enqNotif n :: rest => n :: enqueuedNotifs rest
  | _ :: rest => enqueuedNotifs rest

/-- The values a list of dequeue answers actually delivered (dropping the
`none` answers returned on an empty queue). -/
def delivered {α : Type} : List (Option α) → List α
  | [] => []
  | some a :: rest => a :: delivered rest
  | none :: rest => delivered rest

/-! ### Job worker (src/queueWorker.js)

One call of the external `agregarAGrupo(client, groupJid, userId, materiaNombre)`
either returns an object of the shape `{exito, materia}` (every return site in
`src/index.js` builds exactly that shape, with `materia` the `materiaNombre`
that was passed in) or throws. -/

inductive ExecStep where
  | ret (exito : Bool)
  | exn
deriving Repr, DecidableEq

/-- The `result` object held by the worker loop. Its only populated fields are
`exito` and `materia`; line 160 of `src/queueWorker.js` nevertheless reads
`result.success`, a property no producer of this object ever sets, so in
JavaScript that read yields `undefined` (falsy). The phantom property is
modelled as an `Option Bool` that every construction site leaves at `none`. -/
structure JobResult where
  exito : Bool
  materia : String
  success : Option Bool := none
deriving Repr, DecidableEq

/-- Truthiness of the possibly-missing `success` property (`undefined` is falsy). -/
def truthy (o : Option Bool) : Bool := o.getD false

/-- Observable actions of the worker while handling one job: an invocation of
`agregarAGrupo` (with its 0-based attempt index), the after-error pause
`delayFromRange(DELAYS.DESPUES_ERROR)`, the `trackJobCompletion` call, and the
between-operations pacing `delayFromRange(DELAYS.ENTRE_ADICIONES)`. -/
inductive WorkerEvent where
  | invoke (attempt : Nat)
  | pauseAfterError
  | track (documentId : Nat) (o : Outcome)
  | paceBetweenOps
deriving Repr, DecidableEq

/-- Prefix the event log of a loop-iteration result with the events of the
current iteration. -/
def prependEvents (evs : List WorkerEvent) (r : JobResult × Nat × List WorkerEvent) :
    JobResult × Nat × List WorkerEvent :=
  (r.1, r.2.1, evs ++ r.2.2)

/-- The retry loop
`while (attempts <= MAX_RETRIES && !success) { ... attempts++ }` of
`jobWorkerLoop`. `fuel` is `maxRetries + 1 - attempts`, which is positive
exactly when the loop guard `attempts <= maxRetries` holds; `res` is the
current value of the mutable `result` variable (its initial value is a dummy
that is never observed when the loop runs at least one iteration, i.e. when
`fuel ≥ 1`). Returns the final `result`, the final value of `attempts`
(= the number of invocations of the execution function), and the events. -/
def retryGo (exec : Nat → ExecStep) (materia : String) (maxRetries : Nat) :
    Nat → Nat → JobResult → JobResult × Nat × List WorkerEvent
  | attempts, 0, res => (res, attempts, [])
  | attempts, fuel + 1, _ =>
    match exec attempts with
    | ExecStep.ret true =>
      ({ exito := true, materia := materia }, attempts + 1, [WorkerEvent.invoke attempts])
    | ExecStep.ret false =>
      prependEvents
        (if attempts < maxRetries then
            [WorkerEvent.invoke attempts, WorkerEvent.pauseAfterError]
          else [WorkerEvent.invoke attempts])
        (retryGo exec materia maxRetries (attempts + 1) fuel
          { exito := false, materia := materia })
    | ExecStep.exn =>
      prependEvents [WorkerEvent.invoke attempts]
        (retryGo exec materia maxRetries (attempts + 1) fuel
          { exito := false, materia := materia })

/-- The retry loop as entered by the worker: `attempts = 0`, full fuel
`maxRetries + 1`, dummy initial `result`. -/
def runRetryLoop (exec : Nat → ExecStep) (materia : String) (maxRetries : Nat) :
    JobResult × Nat × List WorkerEvent :=
  retryGo exec materia maxRetries 0 (maxRetries + 1)
    { exito := false, materia := materia }

/-- The handling of one regular (non-`create_group`) job by `jobWorkerLoop`
after it was dequeued: run the retry loop, call `trackJobCompletion(documentId,
{success: result.exito, message: result.materia, materiaNombre, userId})`
exactly once with the final outcome, then — per line 160 — run the
between-operations pacing only `if (result.success)`. The best-effort database
update is external I/O that touches neither the queue state nor the events
relevant here. Returns the final result, the attempts used, and the events. -/
def processRegularJob (exec : Nat → ExecStep) (job : Job) :
    JobResult × Nat × List WorkerEvent :=
  let r := runRetryLoop exec job.materiaNombre MAX_RETRIES
  let outcome : Outcome :=
    { success := r.1.exito
      message := r.1.materia
      materiaNombre := job.materiaNombre
      userId := job.userId }
  let paceEvs := if truthy r.1.success then [WorkerEvent.paceBetweenOps] else []
  (r.1, r.2.1, r.2.2 ++ [WorkerEvent.track job.documentId outcome] ++ paceEvs)

/-! ### Supervisor and shutdown (src/queueWorker.js) -/

/-- The delay chosen by `restartWithBackoff`:
`WORKER_RESTART_DELAYS[Math.min(restartCount, WORKER_RESTART_DELAYS.length - 1)]`. -/
def restartDelay (restartCount : Nat) : Nat :=
  WORKER_RESTART_DELAYS.getD (min restartCount (WORKER_RESTART_DELAYS.length - 1)) 0

/-- `restartWithBackoff` picks the delay for the current `restartCount` and then
increments the counter. -/
def restartStep (restartCount : Nat) : Nat × Nat :=
  (restartDelay restartCount, restartCount + 1)

/-- The module-level worker state of `src/queueWorker.js` that `stopWorkers`
reads and writes. -/
structure WorkerFlags where
  isJobWorkerRunning : Bool
  isNotificationWorkerRunning : Bool
  restartCount : Nat
  lastSuccessTime : Nat
deriving Repr, DecidableEq

/-- The polling loop `waitForQueuesEmpty` checks the combined queue depth at
times `0, 1000, 2000, …` ms; this scans for the first poll index (starting at
`k`, for `fuel` polls) at which the depth is zero. -/
def scanDrain (depth : Nat → Nat) : Nat → Nat → Option Nat
  | _, 0 => none
  | k, fuel + 1 => if depth k = 0 then some k else scanDrain depth (k + 1) fuel

/-- The time at which `Promise.race([waitForQueuesEmpty(), timeoutPromise])`
settles: the first poll (1000 ms apart, starting immediately) that finds both
queues empty, if that happens before the `SHUTDOWN_TIMEOUT` rejection fires;
otherwise the timeout itself at `SHUTDOWN_TIMEOUT`. `depth k` is the combined
`jobQueue.length + notificationQueue.length` seen by the k-th poll. -/
def stopResolveTime (depth : Nat → Nat) : Nat :=
  match scanDrain depth 0 (SHUTDOWN_TIMEOUT / 1000) with
  | some k => k * 1000
  | none => SHUTDOWN_TIMEOUT

/-- `stopWorkers()`: set both running flags to false, wait for the race above,
then reset `restartCount` to zero when `Date.now() - lastSuccessTime > 60000`.
Returns the final worker state and the time at which the call resolved. -/
def stopWorkers (w : WorkerFlags) (now : Nat) (depth : Nat → Nat) :
    WorkerFlags × Nat :=
  let w1 := { w with isJobWorkerRunning := false, isNotificationWorkerRunning := false }
  let t := stopResolveTime depth
  let w2 := if 60000 < now - w1.lastSuccessTime then { w1 with restartCount := 0 } else w1
  (w2, t)

/-! ### Test fixtures -/

/-- A successful job outcome. -/
def okOutcome : Outcome :=
  { success := true, message := "Agregado", materiaNombre := "INF412", userId := "u1" }

/-- A failed job outcome. -/
def badOutcome : Outcome :=
  { success := false, message := "Error", materiaNombre := "MAT101", userId := "u1" }

/-- A sample job. -/
def sampleJob : Job :=
  { userId := "u1", groupJid := "g1", subjectId := some 10, documentId := 4,
    materiaNombre := "INF412" }

/-- The `userId` of the last outcome in a list (the one the terminal event
carries), with a default for the empty list. -/
def lastUserId (outs : List Outcome) : String :=
  (outs.getLast?).elim "" Outcome.userId

/-! ### Helper lemmas -/

lemma countFail_cons (o : Outcome) (l : List Outcome) :
    countFail (o :: l) = failInc o + countFail l := by
  simp [countFail]

lemma lastUserId_cons (o : Outcome) (l : List Outcome) (h : l ≠ []) :
    lastUserId (o :: l) = lastUserId l := by
  cases l with
  | nil => exact absurd rfl h
  | cons b t => simp [lastUserId, List.getLast?]

/-- Unknown document: `trackJobCompletion` is the identity and emits nothing. -/
lemma trackJobCompletion_none (s : QMState) (d : Nat) (o : Outcome)
    (h : s.documentProgress d = none) :
    trackJobCompletion s d o = (s, none) := by
  unfold trackJobCompletion
  rw [h]

/-- A non-final `trackJobCompletion` call: the record is updated in place and
no event is emitted. -/
lemma trackJobCompletion_mid (s : QMState) (d : Nat) (o : Outcome) (p : DocProgress)
    (hp : s.documentProgress d = some p) (hne : p.completed + 1 ≠ p.total) :
    trackJobCompletion s d o =
      ({ s with documentProgress := fun k =>
          if k = d then
            some { total := p.total, completed := p.completed + 1,
                   results := p.results ++ [o], failedCount := p.failedCount + failInc o }
          else s.documentProgress k }, none) := by
  unfold trackJobCompletion
  rw [hp]
  simp only [if_neg hne]

/-- The final `trackJobCompletion` call (`completed` reaches `total`): the
record is deleted and exactly one terminal event is emitted, chosen by the
fail threshold. -/
lemma trackJobCompletion_last (s : QMState) (d : Nat) (o : Outcome) (p : DocProgress)
    (hp : s.documentProgress d = some p) (heq : p.completed + 1 = p.total) :
    trackJobCompletion s d o =
      if DOCUMENT_FAIL_THRESHOLD ≤ p.failedCount + failInc o then
        ({ s with
            documentProgress := fun k => if k = d then none else s.documentProgress k
            totalFailed := s.totalFailed + 1 },
          some (Signal.documentFailed d (p.results ++ [o]) o.userId))
      else
        ({ s with
            documentProgress := fun k => if k = d then none else s.documentProgress k
            totalCompleted := s.totalCompleted + 1 },
          some (Signal.documentReadyToNotify d (p.results ++ [o]) o.userId)) := by
  unfold trackJobCompletion
  rw [hp]
  simp only [if_pos heq]

lemma runTrackCalls_cons_fst (s : QMState) (d : Nat) (o : Outcome) (rest : List Outcome) :
    (runTrackCalls s d (o :: rest)).1 =
      (runTrackCalls (trackJobCompletion s d o).1 d rest).1 := rfl

lemma runTrackCalls_cons_snd (s : QMState) (d : Nat) (o : Outcome) (rest : List Outcome) :
    (runTrackCalls s d (o :: rest)).2 =
      (trackJobCompletion s d o).2 :: (runTrackCalls (trackJobCompletion s d o).1 d rest).2 := rfl

/-- Main aggregation lemma: from a live record that is exactly `outs.length`
completions away from its total, running those completions emits nothing on
every call but the last, emits on the last call exactly one terminal event —
classified by comparing the accumulated `failedCount` against the threshold,
carrying the full ordered result list and the last outcome's `userId` — and
removes the record. -/
lemma runTrackCalls_finishes (outs : List Outcome) :
    ∀ (s : QMState) (d : Nat) (p : DocProgress), outs ≠ [] →
      s.documentProgress d = some p →
      p.completed + outs.length = p.total →
      (runTrackCalls s d outs).2 =
        List.replicate (outs.length - 1) none ++
          [some (if DOCUMENT_FAIL_THRESHOLD ≤ p.failedCount + countFail outs then
              Signal.documentFailed d (p.results ++ outs) (lastUserId outs)
            else
              Signal.documentReadyToNotify d (p.results ++ outs) (lastUserId outs))] ∧
      (runTrackCalls s d outs).1.documentProgress d = none := by
  induction outs with
  | nil => intro s d p h; exact absurd rfl h
  | cons o rest ih =>
    intro s d p _ hp hlen
    cases rest with
    | nil =>
      have heq : p.completed + 1 = p.total := by simpa using hlen
      have hstep := trackJobCompletion_last s d o p hp heq
      rw [runTrackCalls_cons_snd, runTrackCalls_cons_fst, hstep]
      by_cases hth : DOCUMENT_FAIL_THRESHOLD ≤ p.failedCount + failInc o
      · have hth' : DOCUMENT_FAIL_THRESHOLD ≤ p.failedCount + countFail [o] := by
          simp [countFail] at hth ⊢
          omega
        rw [if_pos hth, if_pos hth']
        simp [runTrackCalls, lastUserId, List.getLast?]
      · have hth' : ¬ DOCUMENT_FAIL_THRESHOLD ≤ p.failedCount + countFail [o] := by
          simp [countFail] at hth ⊢
          omega
        rw [if_neg hth, if_neg hth']
        simp [runTrackCalls, lastUserId, List.getLast?]
    | cons r rs =>
      have hne : p.completed + 1 ≠ p.total := by
        simp only [List.length_cons] at hlen
        omega
      have hstep := trackJobCompletion_mid s d o p hp hne
      have hp' : (trackJobCompletion s d o).1.documentProgress d =
          some { total := p.total, completed := p.completed + 1,
                 results := p.results ++ [o], failedCount := p.failedCount + failInc o } := by
        rw [hstep]
        simp
      have hlen' : p.completed + 1 + (r :: rs).length = p.total := by
        simp only [List.length_cons] at hlen ⊢
        omega
      have hih := ih (trackJobCompletion s d o).1 d _ (by simp) hp' hlen'
      dsimp only at hih
      constructor
      · rw [runTrackCalls_cons_snd, hih.1]
        have hsig : (trackJobCompletion s d o).2 = none := by rw [hstep]
        rw [hsig]
        have hrep : (none : Option Signal) ::
            (List.replicate ((r :: rs).length - 1) (none : Option Signal) ++
              [some (if DOCUMENT_FAIL_THRESHOLD ≤
                  p.failedCount + failInc o + countFail (r :: rs) then
                Signal.documentFailed d ((p.results ++ [o]) ++ (r :: rs)) (lastUserId (r :: rs))
              else
                Signal.documentReadyToNotify d ((p.results ++ [o]) ++ (r :: rs))
                  (lastUserId (r :: rs)))]) =
            List.replicate ((o :: r :: rs).length - 1) (none : Option Signal) ++
              [some (if DOCUMENT_FAIL_THRESHOLD ≤
                  p.failedCount + countFail (o :: r :: rs) then
                Signal.documentFailed d (p.results ++ (o :: r :: rs)) (lastUserId (o :: r :: rs))
              else
                Signal.documentReadyToNotify d (p.results ++ (o :: r :: rs))
                  (lastUserId (o :: r :: rs)))] := by
          have hfc : p.failedCount + failInc o + countFail (r :: rs) =
              p.failedCount + countFail (o :: r :: rs) := by
            rw [countFail_cons o (r :: rs)]
            omega
          have hlu : lastUserId (r :: rs) = lastUserId (o :: r :: rs) :=
            (lastUserId_cons o (r :: rs) (by simp)).symm
          rw [hfc, hlu]
          simp [List.replicate_succ]
        exact hrep
      · rw [runTrackCalls_cons_fst]
        exact hih.2

/-- How one `trackJobCompletion` call can change the progress map at any key:
it is unchanged, or it was deleted, or (at the tracked key, non-final call)
it was replaced by the incremented record. -/
lemma trackJobCompletion_progress_cases (s : QMState) (d : Nat) (o : Outcome) (k : Nat) :
    (trackJobCompletion s d o).1.documentProgress k = s.documentProgress k ∨
    (trackJobCompletion s d o).1.documentProgress k = none ∨
    (∃ p, s.documentProgress d = some p ∧ k = d ∧ p.completed + 1 ≠ p.total ∧
      (trackJobCompletion s d o).1.documentProgress k =
        some { total := p.total, completed := p.completed + 1,
               results := p.results ++ [o], failedCount := p.failedCount + failInc o }) := by
  cases hp : s.documentProgress d with
  | none =>
    left
    rw [trackJobCompletion_none s d o hp]
  | some p =>
    by_cases heq : p.completed + 1 = p.total
    · rw [trackJobCompletion_last s d o p hp heq]
      by_cases hth : DOCUMENT_FAIL_THRESHOLD ≤ p.failedCount + failInc o
      · rw [if_pos hth]
        by_cases hkd : k = d
        · right; left; simp [hkd]
        · left; simp [hkd]
      · rw [if_neg hth]
        by_cases hkd : k = d
        · right; left; simp [hkd]
        · left; simp [hkd]
    · rw [trackJobCompletion_mid s d o p hp heq]
      by_cases hkd : k = d
      · right; right
        exact ⟨p, rfl, hkd, heq, by simp [hkd]⟩
      · left; simp [hkd]

/-- The inductive invariant behind the `completedCount ≤ expectedTotal`
claim: every live record is strictly below its total. -/
def ProgressInv (s : QMState) : Prop :=
  ∀ d r, s.documentProgress d = some r → r.completed < r.total

lemma progressInv_applyAggOp (s : QMState) (op : AggOp)
    (hop : (match op with
            | AggOp.init _ t => decide (1 ≤ t)
            | AggOp.track _ _ => true) = true)
    (h : ProgressInv s) : ProgressInv (applyAggOp s op) := by
  cases op with
  | init d t =>
    have ht : 1 ≤ t := of_decide_eq_true hop
    intro k r hk
    simp only [applyAggOp, initDocument] at hk
    by_cases hkd : k = d
    · rw [if_pos hkd] at hk
      injection hk with h1
      subst h1
      simpa using ht
    · rw [if_neg hkd] at hk
      exact h k r hk
  | track d o =>
    intro k r hk
    simp only [applyAggOp] at hk
    rcases trackJobCompletion_progress_cases s d o k with hc | hc | ⟨p, hp, _, hne, hc⟩
    · rw [hc] at hk
      exact h k r hk
    · rw [hc] at hk
      exact absurd hk (by simp)
    · rw [hc] at hk
      injection hk with h1
      subst h1
      have := h d p hp
      simp only
      omega

lemma progressInv_runAggOps (ops : List AggOp) :
    ∀ s, allInitsPositive ops = true → ProgressInv s → ProgressInv (runAggOps s ops) := by
  induction ops with
  | nil => intro s _ h; exact h
  | cons op rest ih =>
    intro s hall h
    simp only [allInitsPositive, List.all_cons, Bool.and_eq_true] at hall
    exact ih _ hall.2 (progressInv_applyAggOp s op hall.1 h)

/-! ### Claim theorems -/

/-- C1 (amended to require `N ≥ 1`): after `initDocument(documentId, N)` with
`N ≥ 1`, running exactly `N` `trackCompletion` calls for that document emits no
terminal event on any of the first `N − 1` calls, emits exactly one terminal
event on the `N`-th call, and deletes the progress record, so an existence
check afterwards finds nothing. -/
theorem initDocument_tracks_exactly_one_terminal
    (s : QMState) (d N : Nat) (outs : List Outcome)
    (hN : 1 ≤ N) (hlen : outs.length = N) :
    (∃ sig : Signal,
      (runTrackCalls (initDocument s d N) d outs).2 =
        List.replicate (N - 1) none ++ [some sig]) ∧
    (runTrackCalls (initDocument s d N) d outs).1.documentProgress d = none := by
  have hfresh : (initDocument s d N).documentProgress d =
      some { total := N, completed := 0, results := [], failedCount := 0 } := by
    simp [initDocument]
  have hne : outs ≠ [] := by
    intro hnil
    rw [hnil] at hlen
    simp at hlen
    omega
  have h := runTrackCalls_finishes outs (initDocument s d N) d
    { total := N, completed := 0, results := [], failedCount := 0 } hne hfresh
    (by simpa using hlen)
  have h1 := h.1
  rw [hlen] at h1
  exact ⟨⟨_, h1⟩, h.2⟩

/-- C1 witness: a concrete document with `N = 2`. -/
theorem initDocument_tracks_exactly_one_terminal_witness :
    (∃ sig : Signal,
      (runTrackCalls (initDocument emptyQM 1 2) 1 [okOutcome, badOutcome]).2 =
        List.replicate (2 - 1) none ++ [some sig]) ∧
    (runTrackCalls (initDocument emptyQM 1 2) 1
        [okOutcome, badOutcome]).1.documentProgress 1 = none :=
  initDocument_tracks_exactly_one_terminal emptyQM 1 2 [okOutcome, badOutcome]
    (by decide) (by rfl)

/-- C1 counterexample: for a document initialized with `expectedTotal = 0`,
after its exactly 0 `trackCompletion` calls no terminal signal has fired and
the progress record still exists — and even spurious further calls never fire
one, because `completed` can never again equal `total`. -/
theorem initDocument_zero_total_never_finalizes :
    (runTrackCalls (initDocument emptyQM 7 0) 7 []).2 = [] ∧
    (runTrackCalls (initDocument emptyQM 7 0) 7 []).1.documentProgress 7 =
      some { total := 0, completed := 0, results := [], failedCount := 0 } ∧
    (runTrackCalls (initDocument emptyQM 7 0) 7
        [okOutcome, okOutcome, okOutcome]).2 = [none, none, none] := by
  exact ⟨rfl, by decide, by decide⟩

/-- Five outcomes with 2 failures and 3 successes (the last one from "u1"). -/
def outsTwoFail : List Outcome :=
  [badOutcome, badOutcome, okOutcome, okOutcome, okOutcome]

/-- Five outcomes with 3 failures and 2 successes (the last one from "u1"). -/
def outsThreeFail : List Outcome :=
  [badOutcome, badOutcome, badOutcome, okOutcome, okOutcome]

/-- C2: on the call where `completed` reaches `total`, the aggregator
classifies the document as failed exactly when the accumulated `failedCount`
reaches `DOCUMENT_FAIL_THRESHOLD`, and as completed otherwise, the emitted
event carrying the full ordered result list; concretely with threshold 3 and
`expectedTotal = 5`, two failures yield the completed event (failedCount 2)
and three failures yield the failed event (failedCount 3). -/
theorem trackCompletion_threshold_classification :
    (∀ (s : QMState) (d : Nat) (p : DocProgress) (o : Outcome),
      s.documentProgress d = some p →
      p.completed + 1 = p.total →
      (trackJobCompletion s d o).2 =
        some (if DOCUMENT_FAIL_THRESHOLD ≤ p.failedCount + failInc o then
            Signal.documentFailed d (p.results ++ [o]) o.userId
          else
            Signal.documentReadyToNotify d (p.results ++ [o]) o.userId)) ∧
    (countFail outsTwoFail = 2 ∧
      (runTrackCalls (initDocument emptyQM 1 5) 1 outsTwoFail).2 =
        [none, none, none, none,
          some (Signal.documentReadyToNotify 1 outsTwoFail "u1")]) ∧
    (countFail outsThreeFail = 3 ∧
      (runTrackCalls (initDocument emptyQM 1 5) 1 outsThreeFail).2 =
        [none, none, none, none,
          some (Signal.documentFailed 1 outsThreeFail "u1")]) := by
  refine ⟨?_, ⟨by decide, by decide⟩, ⟨by decide, by decide⟩⟩
  intro s d p o hp heq
  rw [trackJobCompletion_last s d o p hp heq]
  by_cases hth : DOCUMENT_FAIL_THRESHOLD ≤ p.failedCount + failInc o
  · rw [if_pos hth, if_pos hth]
  · rw [if_neg hth, if_neg hth]

/-- C2 witness: the classification rule applied to a concrete one-job document
finishing with a failure (below the threshold, hence the completed event). -/
theorem trackCompletion_threshold_classification_witness :
    (trackJobCompletion (initDocument emptyQM 2 1) 2 badOutcome).2 =
      some (if DOCUMENT_FAIL_THRESHOLD ≤ 0 + failInc badOutcome then
          Signal.documentFailed 2 ([] ++ [badOutcome]) badOutcome.userId
        else
          Signal.documentReadyToNotify 2 ([] ++ [badOutcome]) badOutcome.userId) :=
  trackCompletion_threshold_classification.1 (initDocument emptyQM 2 1) 2
    { total := 1, completed := 0, results := [], failedCount := 0 } badOutcome
    (by simp [initDocument]) (by decide)

/-- C4: a `trackCompletion` call whose `documentId` has no progress record
(never initialized, or already finalized and removed) leaves the whole
aggregator state unchanged and emits no terminal event. -/
theorem trackCompletion_unknown_noop (s : QMState) (d : Nat) (o : Outcome)
    (h : s.documentProgress d = none) :
    trackJobCompletion s d o = (s, none) :=
  trackJobCompletion_none s d o h

/-- C4 witness: tracking against the fresh (empty) manager. -/
theorem trackCompletion_unknown_noop_witness :
    trackJobCompletion emptyQM 3 okOutcome = (emptyQM, none) :=
  trackCompletion_unknown_noop emptyQM 3 okOutcome rfl

/-- C7 counterexample: after `initDocument(1, 0)`, one `trackCompletion` call
leaves a stored record with `completedCount = 1 > 0 = expectedTotal`. -/
theorem completedCount_exceeds_total_at_zero :
    (runAggOps emptyQM [AggOp.init 1 0, AggOp.track 1 okOutcome]).documentProgress 1 =
      some { total := 0, completed := 1, results := [okOutcome], failedCount := 0 } ∧
    ¬ ((1 : Nat) ≤ 0) := by
  exact ⟨by decide, by decide⟩

/-- C7 (amended to require every `initDocument` to pass `expectedTotal ≥ 1`):
under that proviso, for every sequence of `initDocument`/`trackCompletion`
operations, every stored record satisfies `completedCount ≤ expectedTotal`. -/
theorem completedCount_le_expectedTotal (ops : List AggOp)
    (hpos : allInitsPositive ops = true) :
    ∀ d r, (runAggOps emptyQM ops).documentProgress d = some r →
      r.completed ≤ r.total := by
  intro d r hr
  have hbase : ProgressInv emptyQM := by
    intro k q hq
    simp [emptyQM] at hq
  have h := progressInv_runAggOps ops emptyQM hpos hbase d r hr
  omega

/-- Operation sequence used as the C7 witness. -/
def sampleAggOps : List AggOp := [AggOp.init 1 2, AggOp.track 1 okOutcome]

/-- C7 witness: a concrete half-finished document obeys the bound. -/
theorem completedCount_le_expectedTotal_witness :
    (runAggOps emptyQM sampleAggOps).documentProgress 1 =
      some { total := 2, completed := 1, results := [okOutcome], failedCount := 0 } ∧
    ({ total := 2, completed := 1, results := [okOutcome],
        failedCount := 0 } : DocProgress).completed ≤ 2 := by
  refine ⟨by decide, ?_⟩
  exact completedCount_le_expectedTotal sampleAggOps (by decide) 1
    { total := 2, completed := 1, results := [okOutcome], failedCount := 0 } (by decide)

/-! ### FIFO and counter lemmas for QueueManager operation sequences -/

lemma runQMOps_cons (s : QMState) (op : QMOp) (rest : List QMOp) :
    runQMOps s (op :: rest) =
      ((runQMOps (applyQMOp s op).1 rest).1,
        (applyQMOp s op).2.1.toList ++ (runQMOps (applyQMOp s op).1 rest).2.1,
        (applyQMOp s op).2.2.toList ++ (runQMOps (applyQMOp s op).1 rest).2.2) := rfl

/-- `trackJobCompletion` never touches the queues or the in-flight counter. -/
lemma trackJobCompletion_preserves (s : QMState) (d : Nat) (o : Outcome) :
    (trackJobCompletion s d o).1.jobQueue = s.jobQueue ∧
    (trackJobCompletion s d o).1.notificationQueue = s.notificationQueue ∧
    (trackJobCompletion s d o).1.jobsProcessing = s.jobsProcessing := by
  cases hp : s.documentProgress d with
  | none => rw [trackJobCompletion_none s d o hp]; exact ⟨rfl, rfl, rfl⟩
  | some p =>
    by_cases heq : p.completed + 1 = p.total
    · rw [trackJobCompletion_last s d o p hp heq]
      by_cases hth : DOCUMENT_FAIL_THRESHOLD ≤ p.failedCount + failInc o
      · rw [if_pos hth]; exact ⟨rfl, rfl, rfl⟩
      · rw [if_neg hth]; exact ⟨rfl, rfl, rfl⟩
    · rw [trackJobCompletion_mid s d o p hp heq]; exact ⟨rfl, rfl, rfl⟩

lemma runQMOps_job_fifo (ops : List QMOp) :
    ∀ s : QMState,
      s.jobQueue ++ enqueuedJobs ops =
        delivered (runQMOps s ops).2.1 ++ (runQMOps s ops).1.jobQueue := by
  induction ops with
  | nil => intro s; simp [runQMOps, enqueuedJobs, delivered]
  | cons op rest ih =>
    intro s
    rw [runQMOps_cons]
    cases op with
    | enqJob j =>
      have h := ih (addJob s j)
      simp only [addJob] at h
      simpa [applyQMOp, enqueuedJobs, delivered, addJob] using h
    | enqNotif n =>
      have h := ih (addNotification s n)
      simpa [applyQMOp, enqueuedJobs, delivered, addNotification] using h
    | deqJob =>
      obtain ⟨jq, nq, dp, tc, tf, jp⟩ := s
      cases jq with
      | nil =>
        have h := ih ⟨[], nq, dp, tc, tf, jp⟩
        simpa [applyQMOp, getNextJob, enqueuedJobs, delivered] using h
      | cons j t =>
        have h := ih ⟨t, nq, dp, tc, tf, jp⟩
        simpa [applyQMOp, getNextJob, enqueuedJobs, delivered] using h
    | deqNotif =>
      obtain ⟨jq, nq, dp, tc, tf, jp⟩ := s
      cases nq with
      | nil =>
        have h := ih ⟨jq, [], dp, tc, tf, jp⟩
        simpa [applyQMOp, getNextNotification, enqueuedJobs, delivered] using h
      | cons n t =>
        have h := ih ⟨jq, t, dp, tc, tf, jp⟩
        simpa [applyQMOp, getNextNotification, enqueuedJobs, delivered] using h
    | init d t =>
      have h := ih (initDocument s d t)
      simpa [applyQMOp, enqueuedJobs, delivered, initDocument] using h
    | track d o =>
      have h := ih (trackJobCompletion s d o).1
      rw [(trackJobCompletion_preserves s d o).1] at h
      simpa [applyQMOp, enqueuedJobs, delivered] using h
    | markProcessing =>
      have h := ih (markJobProcessing s)
      simpa [applyQMOp, enqueuedJobs, delivered, markJobProcessing] using h
    | markCompleted =>
      have h := ih (markJobCompleted s)
      simpa [applyQMOp, enqueuedJobs, delivered, markJobCompleted] using h

lemma runQMOps_notif_fifo (ops : List QMOp) :
    ∀ s : QMState,
      s.notificationQueue ++ enqueuedNotifs ops =
        delivered (runQMOps s ops).2.2 ++ (runQMOps s ops).1.notificationQueue := by
  induction ops with
  | nil => intro s; simp [runQMOps, enqueuedNotifs, delivered]
  | cons op rest ih =>
    intro s
    rw [runQMOps_cons]
    cases op with
    | enqJob j =>
      have h := ih (addJob s j)
      simpa [applyQMOp, enqueuedNotifs, delivered, addJob] using h
    | enqNotif n =>
      have h := ih (addNotification s n)
      simp only [addNotification] at h
      simpa [applyQMOp, enqueuedNotifs, delivered, addNotification] using h
    | deqJob =>
      obtain ⟨jq, nq, dp, tc, tf, jp⟩ := s
      cases jq with
      | nil =>
        have h := ih ⟨[], nq, dp, tc, tf, jp⟩
        simpa [applyQMOp, getNextJob, enqueuedNotifs, delivered] using h
      | cons j t =>
        have h := ih ⟨t, nq, dp, tc, tf, jp⟩
        simpa [applyQMOp, getNextJob, enqueuedNotifs, delivered] using h
    | deqNotif =>
      obtain ⟨jq, nq, dp, tc, tf, jp⟩ := s
      cases nq with
      | nil =>
        have h := ih ⟨jq, [], dp, tc, tf, jp⟩
        simpa [applyQMOp, getNextNotification, enqueuedNotifs, delivered] using h
      | cons n t =>
        have h := ih ⟨jq, t, dp, tc, tf, jp⟩
        simpa [applyQMOp, getNextNotification, enqueuedNotifs, delivered] using h
    | init d t =>
      have h := ih (initDocument s d t)
      simpa [applyQMOp, enqueuedNotifs, delivered, initDocument] using h
    | track d o =>
      have h := ih (trackJobCompletion s d o).1
      rw [(trackJobCompletion_preserves s d o).2.1] at h
      simpa [applyQMOp, enqueuedNotifs, delivered] using h
    | markProcessing =>
      have h := ih (markJobProcessing s)
      simpa [applyQMOp, enqueuedNotifs, delivered, markJobProcessing] using h
    | markCompleted =>
      have h := ih (markJobCompleted s)
      simpa [applyQMOp, enqueuedNotifs, delivered, markJobCompleted] using h

lemma runQMOps_jobsProcessing_le (ops : List QMOp) :
    ∀ s : QMState, s.jobsProcessing ≤ 1 →
      (runQMOps s ops).1.jobsProcessing ≤ 1 := by
  induction ops with
  | nil => intro s h; exact h
  | cons op rest ih =>
    intro s h
    rw [runQMOps_cons]
    apply ih
    cases op with
    | enqJob j => simpa [applyQMOp, addJob] using h
    | enqNotif n => simpa [applyQMOp, addNotification] using h
    | deqJob =>
      obtain ⟨jq, nq, dp, tc, tf, jp⟩ := s
      cases jq with
      | nil => simpa [applyQMOp, getNextJob] using h
      | cons j t => simpa [applyQMOp, getNextJob] using h
    | deqNotif =>
      obtain ⟨jq, nq, dp, tc, tf, jp⟩ := s
      cases nq with
      | nil => simpa [applyQMOp, getNextNotification] using h
      | cons n t => simpa [applyQMOp, getNextNotification] using h
    | init d t => simpa [applyQMOp, initDocument] using h
    | track d o =>
      have hp := (trackJobCompletion_preserves s d o).2.2
      simpa [applyQMOp, hp] using h
    | markProcessing => simp [applyQMOp, markJobProcessing]
    | markCompleted => simp [applyQMOp, markJobCompleted]

/-- C8: both queues are strict FIFO — for every sequence of enqueues
interleaved with dequeues (and any other manager operations), the enqueue
order equals the dequeued values followed by the remaining queue, so dequeues
return elements in exactly the order enqueued with none skipped; and a dequeue
on an empty queue returns the `null` sentinel, not an error. -/
theorem queues_strict_fifo :
    (∀ ops : List QMOp,
      enqueuedJobs ops =
        delivered (runQMOps emptyQM ops).2.1 ++ (runQMOps emptyQM ops).1.jobQueue) ∧
    (∀ ops : List QMOp,
      enqueuedNotifs ops =
        delivered (runQMOps emptyQM ops).2.2 ++
          (runQMOps emptyQM ops).1.notificationQueue) ∧
    (∀ s : QMState, s.jobQueue = [] → getNextJob s = (none, s)) ∧
    (∀ s : QMState, s.notificationQueue = [] → getNextNotification s = (none, s)) := by
  refine ⟨?_, ?_, ?_, ?_⟩
  · intro ops
    simpa [emptyQM] using runQMOps_job_fifo ops emptyQM
  · intro ops
    simpa [emptyQM] using runQMOps_notif_fifo ops emptyQM
  · intro s h
    obtain ⟨jq, nq, dp, tc, tf, jp⟩ := s
    simp only at h
    subst h
    rfl
  · intro s h
    obtain ⟨jq, nq, dp, tc, tf, jp⟩ := s
    simp only at h
    subst h
    rfl

/-- Operation sequence used as the C8 witness. -/
def sampleQMOps : List QMOp :=
  [QMOp.enqJob sampleJob, QMOp.deqJob, QMOp.deqJob, QMOp.enqJob sampleJob]

/-- C8 witness: the FIFO equation on a concrete interleaving, and the empty
sentinel on the fresh manager. -/
theorem queues_strict_fifo_witness :
    (enqueuedJobs sampleQMOps =
      delivered (runQMOps emptyQM sampleQMOps).2.1 ++
        (runQMOps emptyQM sampleQMOps).1.jobQueue) ∧
    getNextJob emptyQM = (none, emptyQM) ∧
    getNextNotification emptyQM = (none, emptyQM) :=
  ⟨queues_strict_fifo.1 sampleQMOps,
    queues_strict_fifo.2.2.1 emptyQM rfl,
    queues_strict_fifo.2.2.2 emptyQM rfl⟩

/-- C10: `jobsProcessing` only ever holds 0 or 1 — `markJobProcessing` sets it
to 1, `markJobCompleted` sets it to 0, no other operation changes it, and over
every operation sequence from the initial state `getQueueStats` never reports
more than one job in flight. -/
theorem jobsProcessing_only_zero_or_one (ops : List QMOp) (s : QMState) :
    (markJobProcessing s).jobsProcessing = 1 ∧
    (markJobCompleted s).jobsProcessing = 0 ∧
    ((runQMOps emptyQM ops).1.jobsProcessing = 0 ∨
      (runQMOps emptyQM ops).1.jobsProcessing = 1) ∧
    (getQueueStats (runQMOps emptyQM ops).1).jobsProcessing ≤ 1 := by
  have h := runQMOps_jobsProcessing_le ops emptyQM (by simp [emptyQM])
  exact ⟨rfl, rfl, by omega, by simpa [getQueueStats] using h⟩

/-! ### Retry-loop lemmas (jobWorkerLoop) -/

/-- Is an event a `trackJobCompletion` call? -/
def isTrackEvent : WorkerEvent → Bool
  | WorkerEvent.track _ _ => true
  | _ => false

/-- Is an event the between-operations pacing delay? -/
def isPaceEvent : WorkerEvent → Bool
  | WorkerEvent.paceBetweenOps => true
  | _ => false

lemma retryGo_attempts_le (fuel : Nat) :
    ∀ (attempts : Nat) (exec : Nat → ExecStep) (m : String) (maxR : Nat) (res : JobResult),
      (retryGo exec m maxR attempts fuel res).2.1 ≤ attempts + fuel := by
  induction fuel with
  | zero => intro attempts exec m maxR res; simp [retryGo]
  | succ fuel ih =>
    intro attempts exec m maxR res
    cases hstep : exec attempts with
    | ret e =>
      cases e with
      | false =>
        simp only [retryGo, hstep, prependEvents]
        have h := ih (attempts + 1) exec m maxR { exito := false, materia := m }
        omega
      | true =>
        simp only [retryGo, hstep]
        omega
    | exn =>
      simp only [retryGo, hstep, prependEvents]
      have h := ih (attempts + 1) exec m maxR { exito := false, materia := m }
      omega

lemma retryGo_first_success (fuel : Nat) :
    ∀ (attempts : Nat) (exec : Nat → ExecStep) (m : String) (maxR : Nat)
      (res : JobResult) (k : Nat),
      attempts ≤ k → k < attempts + fuel →
      exec k = ExecStep.ret true →
      (∀ i, attempts ≤ i → i < k → exec i ≠ ExecStep.ret true) →
      (retryGo exec m maxR attempts fuel res).1.exito = true ∧
      (retryGo exec m maxR attempts fuel res).2.1 = k + 1 := by
  induction fuel with
  | zero => intro attempts exec m maxR res k h1 h2 _ _; omega
  | succ fuel ih =>
    intro attempts exec m maxR res k h1 h2 hk hmin
    by_cases hak : attempts = k
    · subst hak
      simp [retryGo, hk]
    · have hlt : attempts < k := by omega
      cases hstep : exec attempts with
      | ret e =>
        cases e with
        | false =>
          simp only [retryGo, hstep, prependEvents]
          exact ih (attempts + 1) exec m maxR _ k (by omega) (by omega) hk
            (fun i hi1 hi2 => hmin i (by omega) hi2)
        | true => exact absurd hstep (hmin attempts (Nat.le_refl _) hlt)
      | exn =>
        simp only [retryGo, hstep, prependEvents]
        exact ih (attempts + 1) exec m maxR _ k (by omega) (by omega) hk
          (fun i hi1 hi2 => hmin i (by omega) hi2)

/-- Every construction site of the worker's `result` object leaves the phantom
`success` property unset, and the retry loop only passes such objects along. -/
lemma retryGo_success_none (fuel : Nat) :
    ∀ (attempts : Nat) (exec : Nat → ExecStep) (m : String) (maxR : Nat) (res : JobResult),
      res.success = none →
      (retryGo exec m maxR attempts fuel res).1.success = none := by
  induction fuel with
  | zero => intro attempts exec m maxR res h; simpa [retryGo] using h
  | succ fuel ih =>
    intro attempts exec m maxR res h
    cases hstep : exec attempts with
    | ret e =>
      cases e with
      | false =>
        simp only [retryGo, hstep, prependEvents]
        exact ih (attempts + 1) exec m maxR _ rfl
      | true =>
        simp [retryGo, hstep]
    | exn =>
      simp only [retryGo, hstep, prependEvents]
      exact ih (attempts + 1) exec m maxR _ rfl

/-- The retry loop emits only `invoke` and `pauseAfterError` events. -/
lemma retryGo_events_plain (fuel : Nat) :
    ∀ (attempts : Nat) (exec : Nat → ExecStep) (m : String) (maxR : Nat) (res : JobResult),
      (retryGo exec m maxR attempts fuel res).2.2.filter isTrackEvent = [] ∧
      (retryGo exec m maxR attempts fuel res).2.2.filter isPaceEvent = [] := by
  induction fuel with
  | zero => intro attempts exec m maxR res; simp [retryGo]
  | succ fuel ih =>
    intro attempts exec m maxR res
    cases hstep : exec attempts with
    | ret e =>
      cases e with
      | false =>
        have h := ih (attempts + 1) exec m maxR { exito := false, materia := m }
        by_cases hm : attempts < maxR
        · simp only [retryGo, hstep, prependEvents, if_pos hm]
          simp [List.filter_append, h.1, h.2, isTrackEvent, isPaceEvent]
        · simp only [retryGo, hstep, prependEvents, if_neg hm]
          simp [List.filter_append, h.1, h.2, isTrackEvent, isPaceEvent]
      | true =>
        simp [retryGo, hstep, isTrackEvent, isPaceEvent]
    | exn =>
      have h := ih (attempts + 1) exec m maxR { exito := false, materia := m }
      simp only [retryGo, hstep, prependEvents]
      simp [h.1, h.2, isTrackEvent, isPaceEvent]


/-- Execution oracle that fails on attempts 0 and 1 and succeeds on attempt 2. -/
def failTwiceExec : Nat → ExecStep :=
  fun i => if i = 2 then ExecStep.ret true else ExecStep.ret false

/-- The outcome the worker tracks for a job whose every attempt failed. -/
def allFailOutcome : Outcome :=
  { success := false, message := "INF412", materiaNombre := "INF412", userId := "u1" }

/-- C3: the worker invokes the execution function at most `maxRetries + 1`
times; with the first success at attempt `k ≤ maxRetries` it stops right there
(`k + 1` invocations, final success); it calls `trackCompletion` exactly once,
with the final outcome; concretely with `MAX_RETRIES = 2`, failing twice then
succeeding gives `success = true` after exactly 3 invocations, and failing all
3 attempts gives `success = false` whose single tracked outcome bumps the
document `failedCount` by exactly one. -/
theorem job_retry_semantics :
    (∀ (exec : Nat → ExecStep) (m : String) (maxR : Nat),
      (runRetryLoop exec m maxR).2.1 ≤ maxR + 1) ∧
    (∀ (exec : Nat → ExecStep) (m : String) (maxR k : Nat),
      k ≤ maxR → exec k = ExecStep.ret true →
      (∀ i, i < k → exec i ≠ ExecStep.ret true) →
      (runRetryLoop exec m maxR).1.exito = true ∧
      (runRetryLoop exec m maxR).2.1 = k + 1) ∧
    (∀ (exec : Nat → ExecStep) (job : Job),
      (processRegularJob exec job).2.2.filter isTrackEvent =
        [WorkerEvent.track job.documentId
          { success := (processRegularJob exec job).1.exito
            message := (processRegularJob exec job).1.materia
            materiaNombre := job.materiaNombre
            userId := job.userId }]) ∧
    ((runRetryLoop failTwiceExec "INF412" MAX_RETRIES).1.exito = true ∧
      (runRetryLoop failTwiceExec "INF412" MAX_RETRIES).2.1 = 3) ∧
    ((runRetryLoop (fun _ => ExecStep.ret false) "INF412" MAX_RETRIES).1.exito = false ∧
      (runRetryLoop (fun _ => ExecStep.ret false) "INF412" MAX_RETRIES).2.1 = 3 ∧
      (trackJobCompletion (initDocument emptyQM 9 5) 9 allFailOutcome).1.documentProgress 9 =
        some { total := 5, completed := 1, results := [allFailOutcome],
               failedCount := 1 }) := by
  refine ⟨?_, ?_, ?_, ⟨by decide, by decide⟩, ⟨by decide, by decide, by decide⟩⟩
  · intro exec m maxR
    simpa using retryGo_attempts_le (maxR + 1) 0 exec m maxR
      { exito := false, materia := m }
  · intro exec m maxR k hk hsucc hmin
    exact retryGo_first_success (maxR + 1) 0 exec m maxR
      { exito := false, materia := m } k (Nat.zero_le _) (by omega) hsucc
      (fun i _ hi => hmin i hi)
  · intro exec job
    have hev := retryGo_events_plain (MAX_RETRIES + 1) 0 exec job.materiaNombre MAX_RETRIES
      { exito := false, materia := job.materiaNombre }
    simp only [processRegularJob, runRetryLoop]
    rw [List.filter_append, List.filter_append, hev.1]
    by_cases hpace : truthy (retryGo exec job.materiaNombre MAX_RETRIES 0 (MAX_RETRIES + 1)
        { exito := false, materia := job.materiaNombre }).1.success = true
    · rw [if_pos hpace]
      simp [isTrackEvent]
    · rw [if_neg hpace]
      simp [isTrackEvent]

/-- C3 witness: the stop-at-first-success clause applied to the oracle that
succeeds on attempt 2 with `MAX_RETRIES = 2`. -/
theorem job_retry_semantics_witness :
    (runRetryLoop failTwiceExec "INF412" MAX_RETRIES).1.exito = true ∧
    (runRetryLoop failTwiceExec "INF412" MAX_RETRIES).2.1 = 2 + 1 :=
  job_retry_semantics.2.1 failTwiceExec "INF412" MAX_RETRIES 2 (by decide) rfl
    (by
      intro i hi
      have h2 : i = 0 ∨ i = 1 := by omega
      rcases h2 with h | h <;> subst h <;> decide)

/-- C5 (the code bug): line 160 of `src/queueWorker.js` guards the
between-operations pacing with `result.success`, but every `result` object
carries only `exito` (the property `success` is never set, so the guard reads
`undefined`), hence the pacing delay is never performed after a regular job —
not even for a job that succeeded on its first attempt — contradicting the
specified "always pace after a processed job, skipping only empty polls". -/
theorem betweenOps_pacing_never_runs :
    (∀ (exec : Nat → ExecStep) (job : Job),
      (processRegularJob exec job).2.2.filter isPaceEvent = []) ∧
    ((processRegularJob (fun _ => ExecStep.ret true) sampleJob).1.exito = true ∧
      (processRegularJob (fun _ => ExecStep.ret true) sampleJob).2.2.filter isPaceEvent = []) := by
  have hmain : ∀ (exec : Nat → ExecStep) (job : Job),
      (processRegularJob exec job).2.2.filter isPaceEvent = [] := by
    intro exec job
    have hev := retryGo_events_plain (MAX_RETRIES + 1) 0 exec job.materiaNombre MAX_RETRIES
      { exito := false, materia := job.materiaNombre }
    have hnone := retryGo_success_none (MAX_RETRIES + 1) 0 exec job.materiaNombre MAX_RETRIES
      { exito := false, materia := job.materiaNombre } rfl
    simp only [processRegularJob, runRetryLoop]
    rw [List.filter_append, List.filter_append, hev.2]
    simp [hnone, truthy, isPaceEvent]
  exact ⟨hmain, rfl, hmain (fun _ => ExecStep.ret true) sampleJob⟩



/-! ### Supervisor and shutdown lemmas -/

lemma scanDrain_some_lt (fuel : Nat) :
    ∀ (depth : Nat → Nat) (k j : Nat),
      scanDrain depth k fuel = some j → j < k + fuel ∧ depth j = 0 := by
  induction fuel with
  | zero => intro depth k j h; exact absurd h (by simp [scanDrain])
  | succ fuel ih =>
    intro depth k j h
    by_cases hz : depth k = 0
    · rw [scanDrain, if_pos hz] at h
      injection h with h1
      subst h1
      exact ⟨by omega, hz⟩
    · rw [scanDrain, if_neg hz] at h
      have := ih depth (k + 1) j h
      exact ⟨by omega, this.2⟩

lemma scanDrain_none_of_pos (fuel : Nat) :
    ∀ (depth : Nat → Nat) (k : Nat), (∀ i, depth i ≠ 0) →
      scanDrain depth k fuel = none := by
  induction fuel with
  | zero => intro depth k _; rfl
  | succ fuel ih =>
    intro depth k hpos
    rw [scanDrain, if_neg (hpos k)]
    exact ih depth (k + 1) hpos

/-- C9: `stopWorkers` always resolves no later than the shutdown deadline
(hence within the deadline plus one poll interval): it sets both running flags
to false, its resolve time never exceeds `SHUTDOWN_TIMEOUT`, and if the
combined queue depth stays nonzero at every poll — e.g. N jobs queued, each
slower than deadline/N, with the stopped workers no longer draining — it
resolves exactly at the deadline with the work still queued, instead of
hanging. -/
theorem stopWorkers_bounded_shutdown (w : WorkerFlags) (now : Nat) (depth : Nat → Nat) :
    (stopWorkers w now depth).1.isJobWorkerRunning = false ∧
    (stopWorkers w now depth).1.isNotificationWorkerRunning = false ∧
    (stopWorkers w now depth).2 ≤ SHUTDOWN_TIMEOUT ∧
    ((∀ k, depth k ≠ 0) → (stopWorkers w now depth).2 = SHUTDOWN_TIMEOUT) := by
  refine ⟨?_, ?_, ?_, ?_⟩
  · simp only [stopWorkers]
    split <;> rfl
  · simp only [stopWorkers]
    split <;> rfl
  · simp only [stopWorkers]
    unfold stopResolveTime
    cases hscan : scanDrain depth 0 (SHUTDOWN_TIMEOUT / 1000) with
    | none => simp
    | some k =>
      have hk := (scanDrain_some_lt (SHUTDOWN_TIMEOUT / 1000) depth 0 k hscan).1
      have hk600 : k < 600 := by
        have h600 : SHUTDOWN_TIMEOUT / 1000 = 600 := by decide
        omega
      simp only []
      have : k * 1000 ≤ 599 * 1000 := Nat.mul_le_mul_right 1000 (by omega)
      simp only [SHUTDOWN_TIMEOUT]
      omega
  · intro hpos
    simp only [stopWorkers]
    unfold stopResolveTime
    rw [scanDrain_none_of_pos (SHUTDOWN_TIMEOUT / 1000) depth 0 hpos]

/-- Both workers running, counter 0, last success at time 0. -/
def runningFlags : WorkerFlags :=
  { isJobWorkerRunning := true
    isNotificationWorkerRunning := true
    restartCount := 0
    lastSuccessTime := 0 }

/-- Both workers running after one crash, last successful iteration 1 s ago
(sustained successful operation as seen at time 100000). -/
def freshSuccessFlags : WorkerFlags :=
  { isJobWorkerRunning := true
    isNotificationWorkerRunning := true
    restartCount := 1
    lastSuccessTime := 99000 }

/-- Both workers running after one crash, no successful iteration for 100 s
(as seen at time 100000). -/
def staleSuccessFlags : WorkerFlags :=
  { isJobWorkerRunning := true
    isNotificationWorkerRunning := true
    restartCount := 1
    lastSuccessTime := 0 }

/-- C9 witness: a shutdown with five items stuck in the queues at every poll
resolves exactly at the deadline with both flags cleared. -/
theorem stopWorkers_bounded_shutdown_witness :
    (stopWorkers runningFlags 0 (fun _ => 5)).1.isJobWorkerRunning = false ∧
    (stopWorkers runningFlags 0 (fun _ => 5)).2 = SHUTDOWN_TIMEOUT := by
  have h := stopWorkers_bounded_shutdown runningFlags 0 (fun _ => 5)
  exact ⟨h.1, h.2.2.2 (fun k => by simp)⟩

/-- C6 (the code bug): the backoff half of the claim holds — a crash waits
`WORKER_RESTART_DELAYS[min(restartCount, length−1)]` and increments the
counter — but the reset half is inverted in the code: `stopWorkers` resets
`restartCount` only when more than 60 s have passed *without* a successful
iteration (`Date.now() - lastSuccessTime > 60000`), so after sustained
successful operation (fresh `lastSuccessTime`) the counter is *not* reset and
a subsequent crash uses the second backoff delay, not the first. -/
theorem restartCount_reset_condition_inverted :
    restartStep 0 = (5000, 1) ∧
    restartStep 1 = (10000, 2) ∧
    restartStep 4 = (60000, 5) ∧
    restartDelay 9 = 60000 ∧
    (stopWorkers freshSuccessFlags 100000 (fun _ => 0)).1.restartCount = 1 ∧
    restartDelay 1 ≠ restartDelay 0 ∧
    (stopWorkers staleSuccessFlags 100000 (fun _ => 0)).1.restartCount = 0 := by
  refine ⟨by decide, by decide, by decide, by decide, by decide, by decide, by decide⟩


end BotQueue


